import Mathlib

/-!
Verification development for the option-risk-engine core: a shallow embedding
of the pricing, implied-volatility, dividend-curve, volatility-surface and
spot-curve-bootstrap code, together with theorems settling the behavioural
claims about it.

Modelling conventions, used throughout:

* Python floats are modelled by `FV`: either a real number (`FV.val x`) or the
  IEEE quiet NaN (`FV.nan`).  Arithmetic on `FV` propagates NaN; ordered
  comparisons involving NaN are false, mirroring IEEE-754 semantics, and
  Python truthiness of a float (`if x:`) is "NaN or nonzero".
* A Python argument default of `None` is modelled with `Option FV`
  (`none` = the argument was not passed).
* Code that raises is modelled in `Except`: `PyErr` collects the runtime
  error classes that the embedded code can actually raise.
* Exact real arithmetic stands in for double-precision arithmetic; the claims
  treated here are branch/structure properties that do not depend on rounding.
* `Real.log`/division are Mathlib's total functions; Python raises
  `ValueError` on `log x` for `x ≤ 0` and `ZeroDivisionError` on an exact zero
  divisor.  Where a claim's path could reach such a point this is modelled
  explicitly with `Except`; on all other proved paths the arguments are shown
  positive (or NaN), so the junk values are never observable.
* `scipy.optimize.brentq` is third-party code; it enters the embedding as an
  explicit solver argument.  `brentqModel` fixes the parts of its contract the
  claims depend on (the same-sign bracket precheck raising `ValueError`, and
  the guaranteed non-convergence on NaN data raising `RuntimeError`), leaving
  the interior root search as a parameter.
-/

namespace ORE

noncomputable section

open scoped Classical

/-- A Python float value: a real number or the quiet NaN. -/
inductive FV : Type
  | nan : FV
  | val : ℝ → FV

namespace FV

/-- NaN test. -/
def isNan : FV → Prop
  | nan => True
  | val _ => False

/-- Python float addition, NaN-propagating. -/
def add : FV → FV → FV
  | val x, val y => val (x + y)
  | _, _ => nan

/-- Python float subtraction, NaN-propagating. -/
def sub : FV → FV → FV
  | val x, val y => val (x - y)
  | _, _ => nan

/-- Python float multiplication, NaN-propagating. -/
def mul : FV → FV → FV
  | val x, val y => val (x * y)
  | _, _ => nan

/-- Python float division, NaN-propagating.  A zero divisor raises
`ZeroDivisionError` in Python; here it yields Mathlib's junk value `x / 0 = 0`,
and every proved path below either has a provably nonzero divisor or a NaN. -/
def div : FV → FV → FV
  | val x, val y => val (x / y)
  | _, _ => nan

/-- Python float negation, NaN-propagating. -/
def neg : FV → FV
  | val x => val (-x)
  | nan => nan

/-- Python `x ** n` for a natural exponent, NaN-propagating. -/
def pow (b : FV) (n : ℕ) : FV :=
  match b with
  | val x => val (x ^ n)
  | nan => nan

/-- `math.exp`, NaN-propagating. -/
def exp : FV → FV
  | val x => val (Real.exp x)
  | nan => nan

/-- `math.log`, NaN-propagating.  Python raises `ValueError` for arguments
`≤ 0`; Mathlib's total `Real.log` stands in, and every proved path below has a
positive or NaN argument. -/
def log : FV → FV
  | val x => val (Real.log x)
  | nan => nan

/-- `math.sqrt`, NaN-propagating.  Python raises `ValueError` for negative
arguments; Mathlib's total `Real.sqrt` stands in, and every proved path below
has a nonnegative or NaN argument. -/
def sqrt : FV → FV
  | val x => val (Real.sqrt x)
  | nan => nan

/-- `abs`, NaN-propagating. -/
def abs : FV → FV
  | val x => val |x|
  | nan => nan

/-- Python `max`: `max(a, b)` returns `b` exactly when `a < b`.  With a NaN
on either side the comparison is false, so `a` is returned. -/
def max : FV → FV → FV
  | val x, val y => val (Max.max x y)
  | nan, _ => nan
  | val x, nan => val x

/-- IEEE `<`: false when either side is NaN. -/
def lt : FV → FV → Prop
  | val x, val y => x < y
  | _, _ => False

/-- IEEE `≤`: false when either side is NaN. -/
def le : FV → FV → Prop
  | val x, val y => x ≤ y
  | _, _ => False

/-- Python truthiness of a float: NaN is truthy, `0.0` is falsy. -/
def truthy : FV → Prop
  | nan => True
  | val x => x ≠ 0

end FV

/-- The error function, as defined mathematically; models `math.erf`. -/
noncomputable def erf (x : ℝ) : ℝ :=
  2 / Real.sqrt Real.pi * ∫ t in (0 : ℝ)..x, Real.exp (-t ^ 2)

/-- The real-valued standard normal CDF used by the closed-form pricer:
`0.5 * (1 + erf (x / sqrt 2))`. -/
noncomputable def normR (x : ℝ) : ℝ :=
  0.5 * (1 + erf (x / Real.sqrt 2))

/-- `math.erf` lifted to Python float values. -/
def fvErf : FV → FV
  | FV.nan => FV.nan
  | FV.val x => FV.val (erf x)

/-- The `norm` helper inside `BlackScholesMerton._price`:
`0.5 * (1 + erf (x / sqrt 2))`. -/
def normF (x : FV) : FV :=
  FV.mul (FV.val 0.5) (FV.add (FV.val 1) (fvErf (FV.div x (FV.sqrt (FV.val 2)))))

/-- `OptionType`. -/
inductive OptionType : Type
  | Call : OptionType
  | Put : OptionType
  deriving DecidableEq

/-- `ExcerciceStyle` (spelling as in the source). -/
inductive ExcerciceStyle : Type
  | European : ExcerciceStyle
  | American : ExcerciceStyle
  deriving DecidableEq

/-- `BlackScholesMerton._price`: the closed-form European price.
`call = DF*(F*N(d1) - K*N(d2))`; the put branch literally returns
`call_price - DF*(F - K)`. -/
def bsmPrice (S K r q sigma T : FV) (is_call : Bool) : FV :=
  let F := FV.mul S (FV.exp (FV.mul (FV.sub r q) T))
  let DF := FV.exp (FV.neg (FV.mul r T))
  let d1 := FV.div
    (FV.add (FV.log (FV.div S K))
      (FV.mul (FV.add (FV.sub r q) (FV.mul (FV.val 0.5) (FV.pow sigma 2))) T))
    (FV.mul sigma (FV.sqrt T))
  let d2 := FV.sub d1 (FV.mul sigma (FV.sqrt T))
  let call_price := FV.mul DF (FV.sub (FV.mul F (normF d1)) (FV.mul K (normF d2)))
  if is_call then call_price else FV.sub call_price (FV.mul DF (FV.sub F K))

/-- `d1` of the closed form, as a real number. -/
def d1R (S K r q sigma T : ℝ) : ℝ :=
  (Real.log (S / K) + (r - q + 0.5 * sigma ^ 2) * T) / (sigma * Real.sqrt T)

/-- `d2` of the closed form, as a real number. -/
def d2R (S K r q sigma T : ℝ) : ℝ :=
  d1R S K r q sigma T - sigma * Real.sqrt T

/-- The real value of the closed-form call price. -/
def bsmCallR (S K r q sigma T : ℝ) : ℝ :=
  Real.exp (-(r * T)) *
    (S * Real.exp ((r - q) * T) * normR (d1R S K r q sigma T)
      - K * normR (d2R S K r q sigma T))

/-- The immediate-exercise (intrinsic) payoff used by both pricers. -/
def intrinsicPayoff (is_call : Bool) (s k : FV) : FV :=
  if is_call then FV.max (FV.sub s k) (FV.val 0) else FV.max (FV.sub k s) (FV.val 0)

/-- One backward-induction level of `CoxRossRubinstein._price`: spots are
divided by `u` in place and each payoff entry becomes the max of the
discounted continuation value and the immediate exercise value.  The Python
code only updates the first `i+1` array entries at level `i`; the embedding
drops the stale tail (the `zipWith` shortens the payoff list by one per
level), which never feeds the returned `payoff[0]`. -/
def crrStep (u p df K : FV) (is_call : Bool) :
    List FV × List FV → List FV × List FV :=
  fun s =>
    let ST := s.1.map fun stj => FV.div stj u
    let pay := List.zipWith
      (fun stj pj =>
        FV.max
          (FV.mul df (FV.add (FV.mul p pj.1) (FV.mul (FV.sub (FV.val 1) p) pj.2)))
          (intrinsicPayoff is_call stj K))
      ST (s.2.zip s.2.tail)
    (ST, pay)

/-- `CoxRossRubinstein._price`: the CRR binomial tree with N = 1000 steps. -/
def crrPrice (S K r q sigma T : FV) (is_call : Bool) : FV :=
  let N : ℕ := 1000
  let dt := FV.div T (FV.val (N : ℝ))
  let u := FV.exp (FV.mul sigma (FV.sqrt dt))
  let d := FV.div (FV.val 1) u
  let p := FV.div (FV.sub (FV.exp (FV.mul (FV.sub r q) dt)) d) (FV.sub u d)
  let df := FV.exp (FV.neg (FV.mul r dt))
  let ST := (List.range (N + 1)).map fun j =>
    FV.mul S (FV.mul (FV.pow u (N - j)) (FV.pow d j))
  let payoff := ST.map fun stj => intrinsicPayoff is_call stj K
  (((crrStep u p df K is_call)^[N] (ST, payoff)).2.headD FV.nan)

/-- The state of an `OptionPricer` instance: the immutable constructor inputs
plus the mutable `sigma`/`q` fields, tagged with the concrete subclass. -/
structure PricerState : Type where
  style : ExcerciceStyle
  S : FV
  K : FV
  r : FV
  T : FV
  sigma : FV
  q : FV

/-- `OptionPricer.make` composed with the shared `__init__`: dispatch on the
exercise style (both enum members are covered; any other value raises
`ValueError`), then zero-initialise the mutable `sigma`/`q` fields. -/
def OptionPricer.make (style : ExcerciceStyle) (S K r T : FV) : PricerState :=
  ⟨style, S, K, r, T, FV.val 0, FV.val 0⟩

/-- The `price` method (the wrappers of `BlackScholesMerton.price` and
`CoxRossRubinstein.price` are identical): a truthy `sigma` or `q` argument
overwrites the stored field (`if sigma:` / `if q:`), `T ≤ 0` returns the
intrinsic value, otherwise the subclass kernel runs on the stored fields.
Returns the price together with the state after the call. -/
def priceRun (st : PricerState) (ot : OptionType) (sigmaArg qArg : Option FV) :
    FV × PricerState :=
  let st1 := match sigmaArg with
    | some s => if FV.truthy s then { st with sigma := s } else st
    | none => st
  let st2 := match qArg with
    | some qv => if FV.truthy qv then { st1 with q := qv } else st1
    | none => st1
  if FV.le st2.T (FV.val 0) then
    (intrinsicPayoff (decide (ot = OptionType.Call)) st2.S st2.K, st2)
  else
    match st2.style with
    | ExcerciceStyle.European =>
        (bsmPrice st2.S st2.K st2.r st2.q st2.sigma st2.T (decide (ot = OptionType.Call)), st2)
    | ExcerciceStyle.American =>
        (crrPrice st2.S st2.K st2.r st2.q st2.sigma st2.T (decide (ot = OptionType.Call)), st2)

/-- `temp_attr`: stash the attribute's value, set the new one, run the body,
restore the stashed value. -/
def tempAttr (get : PricerState → FV) (set : FV → PricerState → PricerState)
    (newValue : FV) (body : PricerState → FV × PricerState) (st : PricerState) :
    FV × PricerState :=
  let original := get st
  let r := body (set newValue st)
  (r.1, set original r.2)

/-- `OptionPricer.delta`: symmetric finite difference in `S`. -/
def deltaRun (st : PricerState) (ot : OptionType) (h : ℝ) : FV × PricerState :=
  let r1 := tempAttr (fun s => s.S) (fun v s => { s with S := v })
    (FV.add st.S (FV.val h)) (fun s => priceRun s ot none none) st
  let r2 := tempAttr (fun s => s.S) (fun v s => { s with S := v })
    (FV.sub r1.2.S (FV.val h)) (fun s => priceRun s ot none none) r1.2
  (FV.div (FV.sub r1.1 r2.1) (FV.mul (FV.val 2) (FV.val h)), r2.2)

/-- `OptionPricer.gamma`: central second difference in `S`. -/
def gammaRun (st : PricerState) (ot : OptionType) (h : ℝ) : FV × PricerState :=
  let r1 := tempAttr (fun s => s.S) (fun v s => { s with S := v })
    (FV.add st.S (FV.val h)) (fun s => priceRun s ot none none) st
  let r2 := tempAttr (fun s => s.S) (fun v s => { s with S := v })
    r1.2.S (fun s => priceRun s ot none none) r1.2
  let r3 := tempAttr (fun s => s.S) (fun v s => { s with S := v })
    (FV.sub r2.2.S (FV.val h)) (fun s => priceRun s ot none none) r2.2
  (FV.div (FV.add (FV.sub r1.1 (FV.mul (FV.val 2) r2.1)) r3.1) (FV.pow (FV.val h) 2),
    r3.2)

/-- `OptionPricer.vega`: symmetric finite difference in `sigma`. -/
def vegaRun (st : PricerState) (ot : OptionType) (h : ℝ) : FV × PricerState :=
  let r1 := tempAttr (fun s => s.sigma) (fun v s => { s with sigma := v })
    (FV.add st.sigma (FV.val h)) (fun s => priceRun s ot none none) st
  let r2 := tempAttr (fun s => s.sigma) (fun v s => { s with sigma := v })
    (FV.sub r1.2.sigma (FV.val h)) (fun s => priceRun s ot none none) r1.2
  (FV.div (FV.sub r1.1 r2.1) (FV.mul (FV.val 2) (FV.val h)), r2.2)

/-- `OptionPricer.theta`: one-sided bump in `T`, then a price at the restored
state. -/
def thetaRun (st : PricerState) (ot : OptionType) (h : ℝ) : FV × PricerState :=
  let r1 := tempAttr (fun s => s.T) (fun v s => { s with T := v })
    (FV.sub st.T (FV.val h)) (fun s => priceRun s ot none none) st
  let rb := priceRun r1.2 ot none none
  (FV.div (FV.sub r1.1 rb.1) (FV.val h), rb.2)

/-- `OptionPricer.rho`: symmetric finite difference in `r`. -/
def rhoRun (st : PricerState) (ot : OptionType) (h : ℝ) : FV × PricerState :=
  let r1 := tempAttr (fun s => s.r) (fun v s => { s with r := v })
    (FV.add st.r (FV.val h)) (fun s => priceRun s ot none none) st
  let r2 := tempAttr (fun s => s.r) (fun v s => { s with r := v })
    (FV.sub r1.2.r (FV.val h)) (fun s => priceRun s ot none none) r1.2
  (FV.div (FV.sub r1.1 r2.1) (FV.mul (FV.val 2) (FV.val h)), r2.2)

/-- Errors `scipy.optimize.brentq` raises: `ValueError` (bad bracket) or
`RuntimeError` (failed to converge); `implied_volatility` catches both. -/
inductive BrentErr : Type
  | valueErr : BrentErr
  | runtimeErr : BrentErr
  deriving DecidableEq

/-- The shape of the root-finder consumed by `implied_volatility`: an
objective, the bracket ends `a` and `b`, then `maxiter`, `xtol`, `rtol`. -/
def BrentSolver : Type :=
  (FV → FV) → FV → FV → ℕ → ℝ → ℝ → Except BrentErr FV

/-- The bracket selection of `implied_volatility`: `a, b = 0.01, 2.0`, then
overridden to `0.5*guess, 1.5*guess` when `initial_guess` is truthy
(`if initial_guess:` — `None` and `0.0` are falsy, NaN is truthy). -/
def ivBracket (initial_guess : Option FV) : FV × FV :=
  match initial_guess with
  | none => (FV.val 0.01, FV.val 2.0)
  | some g =>
      if FV.truthy g then (FV.mul (FV.val 0.5) g, FV.mul (FV.val 1.5) g)
      else (FV.val 0.01, FV.val 2.0)

/-- The objective closure `f(sigma) = self.price(option_type) - market_price`
of `implied_volatility`: it stores `sigma` (`set_volatility`) and prices off
the stored fields, with `q` already stored by `set_dividend_yield`. -/
def ivObjective (st : PricerState) (ot : OptionType) (market : FV) : FV → FV :=
  fun s => FV.sub (priceRun { st with sigma := s } ot none none).1 market

/-- The tail of `implied_volatility` once the bracket is fixed: run `brentq`
with `maxiter=20, xtol=1e-5, rtol=1e-4`; a `ValueError` or `RuntimeError` is
caught and the NaN sentinel returned in its place.  The state after the call
carries the dividend yield just stored and, for `sigma`, the solver's last
trial volatility — modelled as the upper bracket end; every later read of
`sigma` in the embedded code is preceded by a truthy overwrite, so the choice
is unobservable. -/
def ivCore (solver : BrentSolver) (st : PricerState) (ot : OptionType)
    (market qArg : FV) (a b : FV) : FV × PricerState :=
  let st1 := { st with q := qArg }
  let iv := match solver (ivObjective st1 ot market) a b 20 1e-5 1e-4 with
    | Except.ok v => v
    | Except.error _ => FV.nan
  (iv, { st1 with sigma := b })

/-- `OptionPricer.implied_volatility`. -/
def ivRun (solver : BrentSolver) (st : PricerState) (ot : OptionType)
    (market qArg : FV) (initial_guess : Option FV) : FV × PricerState :=
  let ab := ivBracket initial_guess
  ivCore solver st ot market qArg ab.1 ab.2

/-- The bracket as the spec sentence reads: narrowed whenever a guess is
supplied.  This second definition exists only to compare the claim's wording
against `ivBracket`, which follows the code's truthiness test. -/
def ivBracketSpec (initial_guess : Option FV) : FV × FV :=
  match initial_guess with
  | none => (FV.val 0.01, FV.val 2.0)
  | some g => (FV.mul (FV.val 0.5) g, FV.mul (FV.val 1.5) g)

/-- `implied_volatility` as the spec sentence describes it: identical to
`ivRun` except for using `ivBracketSpec`. -/
def ivRunSpec (solver : BrentSolver) (st : PricerState) (ot : OptionType)
    (market qArg : FV) (initial_guess : Option FV) : FV × PricerState :=
  let ab := ivBracketSpec initial_guess
  ivCore solver st ot market qArg ab.1 ab.2

/-- The deterministic prefix of `scipy.optimize.brentq`: with a NaN bracket
end, or NaN objective values at both ends, no convergence test can ever pass
and after `maxiter` iterations it raises `RuntimeError`; when
`f(a)*f(b) > 0` the sign precheck raises `ValueError` up front.  The genuine
interior root search is the `oracle` parameter; no theorem below ever reaches
it. -/
def brentqModel (oracle : (FV → FV) → FV → FV → Except BrentErr FV) : BrentSolver :=
  fun f a b _maxiter _xtol _rtol =>
    if FV.isNan a ∨ FV.isNan b then Except.error BrentErr.runtimeErr
    else if FV.lt (FV.val 0) (FV.mul (f a) (f b)) then Except.error BrentErr.valueErr
    else if FV.isNan (f a) ∨ FV.isNan (f b) then Except.error BrentErr.runtimeErr
    else oracle f a b

/-- `compute_eu_dividend_yield`: dividend yield from European put-call
parity, `DF = exp(-r*T)`, `F = (C - P)/DF + K`, `q = r - (1/T)*log(F/S)`. -/
def computeEuDividendYield (call_price put_price spot strike T r : FV) : FV :=
  let DF := FV.exp (FV.neg (FV.mul r T))
  let F := FV.add (FV.div (FV.sub call_price put_price) DF) strike
  FV.sub r (FV.mul (FV.div (FV.val 1) T) (FV.log (FV.div F spot)))

/-- The body of `compute_am_dividend_yield`'s `while True:` loop, threading
the current guess `q` and the two persistent pricer instances
(European, American). -/
def amStep (solver : BrentSolver) (call_price put_price spot strike T r : FV) :
    FV × PricerState × PricerState → FV × PricerState × PricerState :=
  fun s =>
    let q := s.1
    let r1 := ivRun solver s.2.1 OptionType.Call call_price q none
    let guess_vol := r1.1
    let r2 := ivRun solver s.2.2 OptionType.Call call_price q (some guess_vol)
    let iv_call := r2.1
    let r3 := ivRun solver r2.2 OptionType.Put put_price q (some guess_vol)
    let iv_put := r3.1
    let r4 := priceRun r1.2 OptionType.Call (some iv_call) (some q)
    let eu_call_price := r4.1
    let r5 := priceRun r4.2 OptionType.Put (some iv_put) (some q)
    let eu_put_price := r5.1
    let q_new := computeEuDividendYield eu_call_price eu_put_price spot strike T r
    (q_new, r5.2, r3.2)

/-- The `while True:` loop of `compute_am_dividend_yield`, fuel-indexed:
`none` means the loop has not met `|q_new - q| < 1e-9` within `fuel`
iterations (the source has no iteration cap at all, so `none` for every fuel
is genuine non-termination). -/
def amLoop (solver : BrentSolver) (call_price put_price spot strike T r : FV) :
    ℕ → FV × PricerState × PricerState → Option FV
  | 0, _ => none
  | Nat.succ n, s =>
      let s2 := amStep solver call_price put_price spot strike T r s
      if FV.lt (FV.abs (FV.sub s2.1 s.1)) (FV.val 1e-9) then some s2.1
      else amLoop solver call_price put_price spot strike T r n s2

/-- `compute_am_dividend_yield`, fuel-indexed: seed `q` from the European
closed form, build the two pricers, iterate. -/
def computeAmDividendYield (solver : BrentSolver) (fuel : ℕ)
    (call_price put_price spot strike T r : FV) : Option FV :=
  let q := computeEuDividendYield call_price put_price spot strike T r
  let am_pricer := OptionPricer.make ExcerciceStyle.American spot strike r T
  let eu_pricer := OptionPricer.make ExcerciceStyle.European spot strike r T
  amLoop solver call_price put_price spot strike T r fuel (q, eu_pricer, am_pricer)

/-- An option quote: the fields of `Option` that the risk-factor code reads.
Quote fields the source types as optional are taken as present, and dates are
day numbers (`ℤ`), so `(expiry - as_of).days` is integer subtraction and
`last_trade_date.date()` is the field itself. -/
structure Opt : Type where
  strike : ℝ
  option_type : OptionType
  last_trade_date : ℤ
  last_price : ℝ
  volume : ℝ

/-- `OptionChain`: the quotes of one expiry. -/
structure OptionChain : Type where
  expiry : ℤ
  options : List Opt

/-- `OptionChains` together with the data read off its underlying
(`underlying.last_close_price`). -/
structure OptionChains : Type where
  exercice_style : ExcerciceStyle
  last_close_price : ℝ
  chains : List OptionChain

/-- `IVPoint`; `value` is the implied vol, possibly the NaN sentinel. -/
structure IVPoint : Type where
  year_to_maturity : ℝ
  strike : ℝ
  moneyness : ℝ
  forward_moneyness : ℝ
  value : FV

/-- `IVSlice`. -/
structure IVSlice : Type where
  year_to_maturity : ℝ
  points : List IVPoint

/-- `IVSurface`. -/
structure IVSurface : Type where
  slices : List IVSlice

/-- `compute_moneyness`: spot log-moneyness `ln(S/K)`. -/
def computeMoneyness (S K : ℝ) : ℝ := Real.log (S / K)

/-- `compute_forward_moneyness`: `F = S*exp((r - q)*T)`; returns `ln(F/K)`. -/
def computeForwardMoneyness (S K r q T : ℝ) : ℝ :=
  Real.log (S * Real.exp ((r - q) * T) / K)

/-- The liquidity/staleness `continue` condition on a quote: volume below 10,
last price below 0.1, or last trade more than one day before the snapshot. -/
def quoteStale (asOf : ℤ) (opt : Opt) : Prop :=
  opt.volume < 10 ∨ opt.last_price < 0.1 ∨ opt.last_trade_date < asOf - 1

/-- The body of `compute_volatility_surface`'s inner quote loop: the
liquidity filter, the ITM filter by forward-moneyness sign, then a fresh
pricer and the implied-vol solve; `none` is a `continue`. -/
def surfaceQuote (solver : BrentSolver) (ex_style : ExcerciceStyle) (S : ℝ)
    (r q T : ℝ) (asOf : ℤ) (opt : Opt) : Option IVPoint :=
  if quoteStale asOf opt then none
  else
    let K := opt.strike
    let m := computeMoneyness S K
    let fwd := computeForwardMoneyness S K r q T
    if opt.option_type = OptionType.Call ∧ fwd > 0 then none
    else if opt.option_type = OptionType.Put ∧ fwd < 0 then none
    else
      let pricer := OptionPricer.make ex_style (FV.val S) (FV.val K) (FV.val r) (FV.val T)
      let iv := (ivRun solver pricer opt.option_type (FV.val opt.last_price)
        (FV.val q) none).1
      some ⟨T, K, m, fwd, iv⟩

/-- `compute_volatility_surface`. -/
def computeVolatilitySurface (option_chains : OptionChains)
    (interp_spot_curve interp_dividend_curve : ℝ → ℝ) (asOf : ℤ)
    (solver : BrentSolver) : IVSurface :=
  let S := option_chains.last_close_price
  IVSurface.mk (option_chains.chains.filterMap fun chain =>
    let T : ℝ := ((chain.expiry - asOf : ℤ) : ℝ) / 252
    if T ≤ 0 then none
    else
      let r := interp_spot_curve T
      let q := interp_dividend_curve T
      some ⟨T, chain.options.filterMap
        (surfaceQuote solver option_chains.exercice_style S r q T asOf)⟩)

/-- `OptionChain.atm_pair`, dictionary pass: the strikes with positive strike
in first-occurrence order (Python dicts preserve insertion order). -/
def atmStrikes (options : List Opt) : List ℝ :=
  (options.filter fun o => decide (0 < o.strike)).foldl
    (fun acc o => if o.strike ∈ acc then acc else acc ++ [o.strike]) []

/-- `OptionChain.atm_pair`, dictionary pass: the quote stored under
`(strike, type)` — dict assignment keeps the last one. -/
def lastOfType (options : List Opt) (s : ℝ) (ty : OptionType) : Option Opt :=
  ((options.filter fun o => decide (0 < o.strike)).filter
    fun o => decide (o.strike = s ∧ o.option_type = ty)).getLast?

/-- `OptionChain.atm_pair`: spot must be positive, then scan the strikes in
dict order keeping the first pair with strictly smallest `|ln(spot/strike)|`
(the `float("inf")` start is the `none` accumulator; the `try/except
ValueError` around `log` cannot fire since spot and strike are positive on
this path). -/
def atmPair (spot : ℝ) (options : List Opt) : Option (ℝ × Opt × Opt) :=
  if spot ≤ 0 then none
  else
    ((atmStrikes options).foldl
      (fun acc s =>
        match lastOfType options s OptionType.Call,
            lastOfType options s OptionType.Put with
        | some c, some p =>
            let m := |Real.log (spot / s)|
            match acc with
            | none => some ((s, c, p), m)
            | some prev => if m < prev.2 then some ((s, c, p), m) else acc
        | _, _ => acc)
      none).map (fun b => b.1)

/-- Outcome of one chain inside `build_dividend_curve`: skipped by a
`continue`, a computed yield, or — only possible on the American
branch — the fuel-exhaustion artifact of the embedded uncapped loop. -/
inductive ChainDividendOutcome : Type
  | skipped : ChainDividendOutcome
  | value : FV → ChainDividendOutcome
  | diverged : ChainDividendOutcome
  deriving DecidableEq

/-- The body of `build_dividend_curve`'s per-chain loop: the year-fraction
skip (`T = (expiry - as_of).days / 252` against `min_year_fraction`), the
ATM-pair skip, the cheap-quote skip, then the European closed form or the
American fixed point depending on the chains' exercise style. -/
def dividendChainStep (solver : BrentSolver) (fuel : ℕ)
    (exercice_style : ExcerciceStyle) (spot : ℝ)
    (interpolated_spot_curve : ℝ → ℝ) (asOf : ℤ) (min_year_fraction : ℝ)
    (chain : OptionChain) : ChainDividendOutcome :=
  let T : ℝ := ((chain.expiry - asOf : ℤ) : ℝ) / 252
  if T < min_year_fraction then ChainDividendOutcome.skipped
  else
    match atmPair spot chain.options with
    | none => ChainDividendOutcome.skipped
    | some scp =>
        let strike := scp.1
        let call_price := scp.2.1.last_price
        let put_price := scp.2.2.last_price
        if Min.min |call_price| |put_price| < 1e-3 then ChainDividendOutcome.skipped
        else
          let r := interpolated_spot_curve T
          if exercice_style = ExcerciceStyle.American then
            match computeAmDividendYield solver fuel (FV.val call_price)
                (FV.val put_price) (FV.val spot) (FV.val strike) (FV.val T)
                (FV.val r) with
            | some q => ChainDividendOutcome.value q
            | none => ChainDividendOutcome.diverged
          else
            ChainDividendOutcome.value (computeEuDividendYield (FV.val call_price)
              (FV.val put_price) (FV.val spot) (FV.val strike) (FV.val T) (FV.val r))

/-- Runtime errors of the embedded numeric code: `ZeroDivisionError`, the
built-in math-domain `ValueError` from `math.log`, the generic `ValueError`
of the curve constructors, and `IndexError`. -/
inductive PyErr : Type
  | zeroDivision : PyErr
  | mathDomain : PyErr
  /-- Modelled from the spec: `NumericDomainError`, the typed error the spec
  says the bootstrap surfaces when the logarithm argument is non-positive.
  No such class (nor any guard around the bootstrap's `log`) exists anywhere
  in the source; the constructor exists only so the claim can be stated and
  compared against what the code actually raises. -/
  | numericDomain : PyErr
  | valueError : PyErr
  | indexError : PyErr
  deriving DecidableEq

/-- `YieldPoint` (evaluation dates as day numbers). -/
structure YieldPoint : Type where
  year_to_maturity : ℝ
  yield_rate : ℝ
  evaluation_date : ℤ

/-- `TermStructureType`. -/
inductive TermStructureType : Type
  | Par : TermStructureType
  | Spot : TermStructureType
  | Divivend : TermStructureType
  deriving DecidableEq

/-- The summed present value of the already-bootstrapped coupons with
maturity strictly below `dt`: the generator inside `_bootstrap_spot_rate`
(whose body is line-identical in `compute_spot_rate`). -/
def pvCoupons (dt : ℝ) (spot_points : List YieldPoint) (coupon : ℝ) : ℝ :=
  ((spot_points.filter fun p => decide (p.year_to_maturity < dt)).map
    fun p => coupon * Real.exp (-p.yield_rate * p.year_to_maturity)).sum

/-- `_bootstrap_spot_rate` / `compute_spot_rate`:
`-log((1 - pv) / (1 + coupon)) / dt`, with the runtime faults of the
expression made explicit in evaluation order: a zero divisor raises
`ZeroDivisionError`, and a non-positive `log` argument raises the built-in
math-domain `ValueError` — there is no guard and no typed error in the
source. -/
def computeSpotRate (dt : ℝ) (spot_points : List YieldPoint) (coupon : ℝ) :
    Except PyErr ℝ :=
  let pv := pvCoupons dt spot_points coupon
  if 1 + coupon = 0 then Except.error PyErr.zeroDivision
  else if (1 - pv) / (1 + coupon) ≤ 0 then Except.error PyErr.mathDomain
  else if dt = 0 then Except.error PyErr.zeroDivision
  else Except.ok (-Real.log ((1 - pv) / (1 + coupon)) / dt)

/-- The `while dt <= max_tenor:` loop of `bootstrap_spot_term_structure`,
reindexed: in exact arithmetic `dt` takes the values `(k+1)*step`, so for
`step > 0` the loop body runs once per `k` with `(k+1)*step ≤ max_tenor`.
`k` counts completed iterations, `m` the iterations remaining, `acc` the
appended spot points. -/
def bootstrapIter (model : ℝ → ℝ) (evaluation_date : ℤ) (step : ℝ) :
    ℕ → ℕ → List YieldPoint → Except PyErr (List YieldPoint)
  | _, 0, acc => Except.ok acc
  | k, Nat.succ m, acc =>
      let dt := ((k : ℝ) + 1) * step
      let semi_annual_rate := model dt
      let coupon := semi_annual_rate / 2
      match computeSpotRate dt acc coupon with
      | Except.error e => Except.error e
      | Except.ok spot_rate =>
          bootstrapIter model evaluation_date step (k + 1) m
            (acc ++ [⟨dt, spot_rate, evaluation_date⟩])

/-- `YieldTermStructure`: the fields the bootstrap reads and writes; the
fitted model is a plain function (a fitted `NelsonSiegel` evaluated through
`__call__`). -/
structure YieldTermStructure : Type where
  points : List YieldPoint
  term_stucture_type : TermStructureType
  evaluation_date : ℤ
  model : ℝ → ℝ

/-- The maturity order used by `__post_init__`'s `points.sort`. -/
def ytmLE (p q : YieldPoint) : Prop :=
  p.year_to_maturity ≤ q.year_to_maturity

instance : IsTotal YieldPoint ytmLE :=
  ⟨fun _ _ => le_total _ _⟩

instance : IsTrans YieldPoint ytmLE :=
  ⟨fun _ _ _ h h2 => le_trans h h2⟩

instance : DecidableRel ytmLE :=
  fun _ _ => Classical.propDecidable _

/-- `YieldTermStructure.from_raw_data` composed with `__post_init__`: sort
the points by maturity (Python's stable `list.sort`; the embedding uses
stable insertion sort), require a single distinct evaluation date (else
`ValueError`), then fit the model on the sorted points.  The scipy fit is
the `fit` parameter — its own convergence failure (`CalibrationError`) is
orthogonal to the claims below. -/
def fromRawData (fit : List ℝ → List ℝ → ℝ → ℝ) (points : List YieldPoint)
    (tst : TermStructureType) : Except PyErr YieldTermStructure :=
  let sorted := List.insertionSort ytmLE points
  let dates := (sorted.map fun p => p.evaluation_date).dedup
  if dates.length = 1 then
    Except.ok ⟨sorted, tst, dates.headD 0,
      fun dt => fit (sorted.map fun p => p.year_to_maturity)
        (sorted.map fun p => p.yield_rate) dt⟩
  else Except.error PyErr.valueError

/-- `bootstrap_spot_term_structure`: run the coupon-stripping loop, append
the special-cased one-month point (`12 * log(1 + r/12)`, reading
`points[0]` — `IndexError` on an empty curve, math-domain `ValueError` when
`1 + r/12 ≤ 0`), then rebuild a sorted, refitted term structure. -/
def bootstrapSpotTermStructure (fit : List ℝ → List ℝ → ℝ → ℝ)
    (ytm : YieldTermStructure) (max_tenor step : ℝ) :
    Except PyErr YieldTermStructure :=
  let n : ℕ := (⌊max_tenor / step⌋).toNat
  match bootstrapIter ytm.model ytm.evaluation_date step 0 n [] with
  | Except.error e => Except.error e
  | Except.ok spot_points =>
      match ytm.points.head? with
      | none => Except.error PyErr.indexError
      | some p0 =>
          let dt_initial : ℝ := 1 / 12
          let r_initial := p0.yield_rate
          if 1 + r_initial / 12 ≤ 0 then Except.error PyErr.mathDomain
          else
            let spot_rate_initial := 12 * Real.log (1 + r_initial / 12)
            fromRawData fit
              (spot_points ++ [⟨dt_initial, spot_rate_initial, ytm.evaluation_date⟩])
              TermStructureType.Spot

/-! ## Basic lemmas about the embedding -/

namespace FV

@[simp] theorem add_val (x y : ℝ) : add (val x) (val y) = val (x + y) := rfl
@[simp] theorem sub_val (x y : ℝ) : sub (val x) (val y) = val (x - y) := rfl
@[simp] theorem mul_val (x y : ℝ) : mul (val x) (val y) = val (x * y) := rfl
@[simp] theorem div_val (x y : ℝ) : div (val x) (val y) = val (x / y) := rfl
@[simp] theorem neg_val (x : ℝ) : neg (val x) = val (-x) := rfl
@[simp] theorem pow_val (x : ℝ) (n : ℕ) : pow (val x) n = val (x ^ n) := rfl
@[simp] theorem exp_val (x : ℝ) : exp (val x) = val (Real.exp x) := rfl
@[simp] theorem log_val (x : ℝ) : log (val x) = val (Real.log x) := rfl
@[simp] theorem sqrt_val (x : ℝ) : sqrt (val x) = val (Real.sqrt x) := rfl
@[simp] theorem abs_val (x : ℝ) : abs (val x) = val |x| := rfl
@[simp] theorem max_val (x y : ℝ) : max (val x) (val y) = val (Max.max x y) := rfl
@[simp] theorem lt_val (x y : ℝ) : lt (val x) (val y) = (x < y) := rfl
@[simp] theorem le_val (x y : ℝ) : le (val x) (val y) = (x ≤ y) := rfl
@[simp] theorem truthy_val (x : ℝ) : truthy (val x) = (x ≠ 0) := rfl
@[simp] theorem truthy_nan : truthy nan = True := rfl
@[simp] theorem isNan_nan : isNan nan = True := rfl
@[simp] theorem isNan_val (x : ℝ) : isNan (val x) = False := rfl

@[simp] theorem add_nan (a : FV) : add a nan = nan := by cases a <;> rfl
@[simp] theorem nan_add (a : FV) : add nan a = nan := by cases a <;> rfl
@[simp] theorem sub_nan (a : FV) : sub a nan = nan := by cases a <;> rfl
@[simp] theorem nan_sub (a : FV) : sub nan a = nan := by cases a <;> rfl
@[simp] theorem mul_nan (a : FV) : mul a nan = nan := by cases a <;> rfl
@[simp] theorem nan_mul (a : FV) : mul nan a = nan := by cases a <;> rfl
@[simp] theorem div_nan (a : FV) : div a nan = nan := by cases a <;> rfl
@[simp] theorem nan_div (a : FV) : div nan a = nan := by cases a <;> rfl
@[simp] theorem neg_nan : neg nan = nan := rfl
@[simp] theorem pow_nan (n : ℕ) : pow nan n = nan := rfl
@[simp] theorem exp_nan : exp nan = nan := rfl
@[simp] theorem log_nan : log nan = nan := rfl
@[simp] theorem sqrt_nan : sqrt nan = nan := rfl
@[simp] theorem abs_nan : abs nan = nan := rfl
@[simp] theorem nan_max (a : FV) : max nan a = nan := by cases a <;> rfl
@[simp] theorem lt_nan (a : FV) : lt a nan = False := by cases a <;> rfl
@[simp] theorem nan_lt (a : FV) : lt nan a = False := by cases a <;> rfl
@[simp] theorem le_nan (a : FV) : le a nan = False := by cases a <;> rfl
@[simp] theorem nan_le (a : FV) : le nan a = False := by cases a <;> rfl

theorem val_injective : Function.Injective val := fun _ _ h => by
  injection h

@[simp] theorem val_inj (x y : ℝ) : (val x = val y) ↔ x = y :=
  ⟨fun h => by injection h, fun h => h ▸ rfl⟩

@[simp] theorem val_ne_nan (x : ℝ) : (val x = nan) ↔ False := by
  constructor
  · intro h; cases h
  · intro h; cases h

@[simp] theorem nan_ne_val (x : ℝ) : (nan = val x) ↔ False := by
  constructor
  · intro h; cases h
  · intro h; cases h

end FV

/-- The Gaussian tail integral over an initial segment is at most the full
half-line Gaussian integral. -/
theorem gauss_segment_le (y : ℝ) (hy : 0 ≤ y) :
    (∫ t in (0 : ℝ)..y, Real.exp (-t ^ 2)) ≤ Real.sqrt Real.pi / 2 := by
  have hint : MeasureTheory.IntegrableOn (fun t : ℝ => Real.exp (-t ^ 2)) (Set.Ioi 0) := by
    have h := (integrable_exp_neg_mul_sq (b := (1 : ℝ)) one_pos).integrableOn
      (s := Set.Ioi (0 : ℝ))
    simpa using h
  have hmono : (∫ t in Set.Ioc (0 : ℝ) y, Real.exp (-t ^ 2))
      ≤ ∫ t in Set.Ioi (0 : ℝ), Real.exp (-t ^ 2) := by
    refine MeasureTheory.setIntegral_mono_set hint ?_ ?_
    · exact MeasureTheory.ae_of_all _ fun _ => (Real.exp_pos _).le
    · exact MeasureTheory.ae_of_all _ Set.Ioc_subset_Ioi_self
  have hIoi : (∫ t in Set.Ioi (0 : ℝ), Real.exp (-t ^ 2)) = Real.sqrt Real.pi / 2 := by
    have h := integral_gaussian_Ioi (1 : ℝ)
    simpa using h
  rw [intervalIntegral.integral_of_le hy]
  exact hmono.trans (le_of_eq hIoi)

/-- The Gaussian integral over an initial segment is nonnegative. -/
theorem gauss_segment_nonneg (y : ℝ) (hy : 0 ≤ y) :
    0 ≤ ∫ t in (0 : ℝ)..y, Real.exp (-t ^ 2) :=
  intervalIntegral.integral_nonneg hy fun _ _ => (Real.exp_pos _).le

/-- The error function is odd. -/
theorem erf_neg (x : ℝ) : erf (-x) = -erf x := by
  unfold erf
  have h : (∫ t in (0 : ℝ)..(-x), Real.exp (-t ^ 2))
      = -∫ t in (0 : ℝ)..x, Real.exp (-t ^ 2) := by
    have hc : (∫ t in (0 : ℝ)..(-x), Real.exp (-(-t) ^ 2))
        = ∫ t in (-(-x) : ℝ)..(-0 : ℝ), Real.exp (-t ^ 2) :=
      intervalIntegral.integral_comp_neg fun t => Real.exp (-t ^ 2)
    simp only [neg_neg, neg_zero] at hc
    have hc2 : (∫ t in (0 : ℝ)..(-x), Real.exp (-t ^ 2))
        = ∫ t in (x : ℝ)..(0 : ℝ), Real.exp (-t ^ 2) := by
      rw [← hc]
      congr 1
      ext t
      rw [neg_sq]
    rw [hc2, intervalIntegral.integral_symm]
  rw [h, mul_neg]

theorem erf_le_one (x : ℝ) : erf x ≤ 1 := by
  have hpi : 0 < Real.sqrt Real.pi := Real.sqrt_pos.mpr Real.pi_pos
  rcases le_or_lt 0 x with hx | hx
  · have hb := gauss_segment_le x hx
    unfold erf
    calc 2 / Real.sqrt Real.pi * ∫ t in (0 : ℝ)..x, Real.exp (-t ^ 2)
        ≤ 2 / Real.sqrt Real.pi * (Real.sqrt Real.pi / 2) := by
          exact mul_le_mul_of_nonneg_left hb (by positivity)
      _ = 1 := by field_simp
  · have hx' : 0 ≤ -x := by linarith
    have hb := gauss_segment_nonneg (-x) hx'
    have h := erf_neg x
    have h0 : 0 ≤ erf (-x) := by
      unfold erf
      positivity
    have : erf x ≤ 0 := by
      rw [erf_neg x] at h0
      linarith
    linarith

theorem neg_one_le_erf (x : ℝ) : -1 ≤ erf x := by
  have h := erf_le_one (-x)
  rw [erf_neg] at h
  linarith

theorem normR_nonneg (x : ℝ) : 0 ≤ normR x := by
  have h := neg_one_le_erf (x / Real.sqrt 2)
  unfold normR
  nlinarith

theorem normR_le_one (x : ℝ) : normR x ≤ 1 := by
  have h := erf_le_one (x / Real.sqrt 2)
  unfold normR
  nlinarith

@[simp] theorem fvErf_nan : fvErf FV.nan = FV.nan := rfl
@[simp] theorem fvErf_val (x : ℝ) : fvErf (FV.val x) = FV.val (erf x) := rfl

@[simp] theorem normF_nan : normF FV.nan = FV.nan := rfl

@[simp] theorem normF_val (x : ℝ) : normF (FV.val x) = FV.val (normR x) := by
  simp [normF, normR]

theorem bsmPrice_val (S K r q sigma T : ℝ) (ic : Bool) :
    bsmPrice (FV.val S) (FV.val K) (FV.val r) (FV.val q) (FV.val sigma) (FV.val T) ic
      = FV.val (if ic then bsmCallR S K r q sigma T
          else bsmCallR S K r q sigma T
            - Real.exp (-(r * T)) * (S * Real.exp ((r - q) * T) - K)) := by
  cases ic <;> simp [bsmPrice, bsmCallR, d1R, d2R]

theorem bsmPrice_sigma_nan (S K r q T : FV) (ic : Bool) :
    bsmPrice S K r q FV.nan T ic = FV.nan := by
  cases ic <;> simp [bsmPrice]

theorem bsmPrice_q_nan (S K r sigma T : FV) (ic : Bool) :
    bsmPrice S K r FV.nan sigma T ic = FV.nan := by
  cases ic <;> simp [bsmPrice]

theorem priceRun_none_snd (st : PricerState) (ot : OptionType) :
    (priceRun st ot none none).2 = st := by
  unfold priceRun
  by_cases hT : FV.le st.T (FV.val 0)
  · simp [hT]
  · cases hs : st.style <;> simp [hT, hs]

/-! ## Claim theorems -/

/-- C1: for every European pricer state with positive spot, strike,
volatility and maturity (and any rate and dividend yield), the put price of
`BlackScholesMerton.price` equals the call price minus `DF*(F - K)` exactly,
with `DF = exp(-r*T)` and `F = S*exp((r - q)*T)`: put-call parity holds by
construction between the two branches of the pricing function. -/
theorem bsm_put_call_parity (S K r q sigma T : ℝ) (_hS : 0 < S) (_hK : 0 < K)
    (_hsigma : 0 < sigma) (hT : 0 < T) :
    (priceRun ⟨ExcerciceStyle.European, FV.val S, FV.val K, FV.val r, FV.val T,
        FV.val sigma, FV.val q⟩ OptionType.Put none none).1
      = FV.sub
        (priceRun ⟨ExcerciceStyle.European, FV.val S, FV.val K, FV.val r, FV.val T,
            FV.val sigma, FV.val q⟩ OptionType.Call none none).1
        (FV.mul (FV.val (Real.exp (-(r * T))))
          (FV.sub (FV.val (S * Real.exp ((r - q) * T))) (FV.val K))) := by
  have hT' : ¬ FV.le (FV.val T) (FV.val 0) := by
    simp only [FV.le_val]
    linarith
  simp [priceRun, hT', bsmPrice_val]

/-- Witness for C1 at `S = K = sigma = T = 1`, `r = q = 0`. -/
theorem bsm_put_call_parity_witness :
    (priceRun ⟨ExcerciceStyle.European, FV.val 1, FV.val 1, FV.val 0, FV.val 1,
        FV.val 1, FV.val 0⟩ OptionType.Put none none).1
      = FV.sub
        (priceRun ⟨ExcerciceStyle.European, FV.val 1, FV.val 1, FV.val 0, FV.val 1,
            FV.val 1, FV.val 0⟩ OptionType.Call none none).1
        (FV.mul (FV.val (Real.exp (-(0 * 1))))
          (FV.sub (FV.val (1 * Real.exp ((0 - 0) * 1))) (FV.val 1))) :=
  bsm_put_call_parity 1 1 0 0 1 1 one_pos one_pos one_pos one_pos

/-- C9: every Greek (`delta`, `gamma`, `vega`, `theta`, `rho`) leaves the
pricer state exactly as it found it — `temp_attr` restores each temporarily
bumped field on exit, for either pricer variant and either option type. -/
theorem greeks_restore_state (st : PricerState) (ot : OptionType) (h : ℝ) :
    (deltaRun st ot h).2 = st ∧ (gammaRun st ot h).2 = st
    ∧ (vegaRun st ot h).2 = st ∧ (thetaRun st ot h).2 = st
    ∧ (rhoRun st ot h).2 = st := by
  refine ⟨?_, ?_, ?_, ?_, ?_⟩ <;>
    simp [deltaRun, gammaRun, vegaRun, thetaRun, rhoRun, tempAttr, priceRun_none_snd]

/-- C10: an explicit `0.0` passed for `sigma` or `q` (or both) does not
override the stored pricer state: `if sigma:` / `if q:` treat `0.0` as
"not supplied", for both pricer variants. -/
theorem price_zero_args_no_override (st : PricerState) (ot : OptionType) :
    priceRun st ot (some (FV.val 0)) (some (FV.val 0)) = priceRun st ot none none
    ∧ priceRun st ot (some (FV.val 0)) none = priceRun st ot none none
    ∧ priceRun st ot none (some (FV.val 0)) = priceRun st ot none none := by
  refine ⟨?_, ?_, ?_⟩ <;> simp [priceRun]

/-- C5 (amended): `implied_volatility` runs the bracketed root-finder with
`maxiter = 20`, `xtol = 1e-5`, `rtol = 1e-4` on the bracket `[0.01, 2.0]`,
narrowed to `[0.5*guess, 1.5*guess]` only when the supplied guess is truthy
(a guess of `0.0` behaves as no guess at all), and on solver failure it
returns the NaN sentinel instead of raising. -/
theorem iv_solver_contract (solver : BrentSolver) (st : PricerState)
    (ot : OptionType) (market qArg g : FV) (e : BrentErr) :
    ivRun solver st ot market qArg none
        = ivCore solver st ot market qArg (FV.val 0.01) (FV.val 2.0)
    ∧ ivRun solver st ot market qArg (some (FV.val 0))
        = ivCore solver st ot market qArg (FV.val 0.01) (FV.val 2.0)
    ∧ (FV.truthy g → ivRun solver st ot market qArg (some g)
        = ivCore solver st ot market qArg (FV.mul (FV.val 0.5) g)
            (FV.mul (FV.val 1.5) g))
    ∧ (ivRun (fun _ _ _ _ _ _ => Except.error e) st ot market qArg (some g)).1
        = FV.nan
    ∧ ∀ solver2 : BrentSolver,
        (∀ f a b, solver f a b 20 1e-5 1e-4 = solver2 f a b 20 1e-5 1e-4) →
        ivRun solver st ot market qArg (some g)
          = ivRun solver2 st ot market qArg (some g) := by
  refine ⟨rfl, ?_, ?_, ?_, ?_⟩
  · simp [ivRun, ivBracket]
  · intro hg
    simp [ivRun, ivBracket, hg]
  · by_cases hg : FV.truthy g <;> simp [ivRun, ivBracket, ivCore, hg]
  · intro solver2 hs
    simp only [ivRun, ivCore]
    rw [hs]

/-- Witness for C5's amended theorem: the truthy-guess branch at a concrete
solver, state and guess `1.0`. -/
theorem iv_solver_contract_witness :
    ivRun (fun _ _ _ _ _ _ => Except.ok (FV.val 1))
        (OptionPricer.make ExcerciceStyle.European (FV.val 1) (FV.val 1)
          (FV.val 0) (FV.val 1)) OptionType.Call (FV.val 1) (FV.val 0)
        (some (FV.val 1))
      = ivCore (fun _ _ _ _ _ _ => Except.ok (FV.val 1))
        (OptionPricer.make ExcerciceStyle.European (FV.val 1) (FV.val 1)
          (FV.val 0) (FV.val 1)) OptionType.Call (FV.val 1) (FV.val 0)
        (FV.mul (FV.val 0.5) (FV.val 1)) (FV.mul (FV.val 1.5) (FV.val 1)) :=
  (iv_solver_contract (fun _ _ _ _ _ _ => Except.ok (FV.val 1))
    (OptionPricer.make ExcerciceStyle.European (FV.val 1) (FV.val 1) (FV.val 0)
      (FV.val 1)) OptionType.Call (FV.val 1) (FV.val 0) (FV.val 1)
    BrentErr.valueErr).2.2.1 (by norm_num)

/-- C5 (counterexample): with a supplied guess of `0.0` the code does not
narrow the bracket to `[0.5*0, 1.5*0]` as the claim's wording demands — it
falls back to the default `[0.01, 2.0]` because `if initial_guess:` is falsy
at `0.0`.  With a solver that returns its lower bracket end, the code's
result differs from the claim's narrowed-bracket reading. -/
theorem iv_guess_zero_counterexample :
    ivRun (fun _ a _ _ _ _ => Except.ok a)
        (OptionPricer.make ExcerciceStyle.European (FV.val 1) (FV.val 1)
          (FV.val 0) (FV.val 1)) OptionType.Call (FV.val 1) (FV.val 0)
        (some (FV.val 0))
      ≠ ivRunSpec (fun _ a _ _ _ _ => Except.ok a)
        (OptionPricer.make ExcerciceStyle.European (FV.val 1) (FV.val 1)
          (FV.val 0) (FV.val 1)) OptionType.Call (FV.val 1) (FV.val 0)
        (some (FV.val 0)) := by
  simp only [ivRun, ivRunSpec, ivBracket, ivBracketSpec, ivCore]
  intro hEq
  have h1 := congrArg Prod.fst hEq
  simp only [FV.truthy_val] at h1
  norm_num at h1

/-- C3 (amended): whenever the already-bootstrapped coupons give
`1 - pv ≤ 0` (with a positive `1 + coupon`), the bootstrap step fails with
the *built-in* math-domain `ValueError` from `log` — the source has no guard
and no typed `NumericDomainError`. -/
theorem bootstrap_log_fault_untyped (dt : ℝ) (spot_points : List YieldPoint)
    (coupon : ℝ) (hc : 0 < 1 + coupon)
    (hpv : 1 - pvCoupons dt spot_points coupon ≤ 0) :
    computeSpotRate dt spot_points coupon = Except.error PyErr.mathDomain := by
  unfold computeSpotRate
  rw [if_neg (by linarith), if_pos]
  exact div_nonpos_of_nonpos_of_nonneg hpv hc.le

/-- Witness for C3's amended theorem: one prior point of maturity 1/4 and
rate 0 with coupon 3 gives `pv = 3`, so `1 - pv ≤ 0`. -/
theorem bootstrap_log_fault_untyped_witness :
    0 < 1 + (3 : ℝ)
    ∧ 1 - pvCoupons (1 / 2) [⟨1 / 4, 0, 0⟩] 3 ≤ 0
    ∧ computeSpotRate (1 / 2) [⟨1 / 4, 0, 0⟩] 3 = Except.error PyErr.mathDomain := by
  have hpv : pvCoupons (1 / 2) [⟨1 / 4, 0, 0⟩] 3 = 3 := by
    simp [pvCoupons, List.filter]
    norm_num
  refine ⟨by norm_num, by rw [hpv]; norm_num, ?_⟩
  exact bootstrap_log_fault_untyped _ _ _ (by norm_num) (by rw [hpv]; norm_num)

/-- C3 (counterexample): at a concrete bootstrap state with `1 - pv ≤ 0`
the step fails with the untyped math-domain fault, not with the typed
`NumericDomainError` the claim asserts. -/
theorem bootstrap_log_fault_counterexample :
    computeSpotRate (1 / 2) [⟨1 / 4, 0, 0⟩] 2 = Except.error PyErr.mathDomain
    ∧ (Except.error PyErr.mathDomain : Except PyErr ℝ)
        ≠ Except.error PyErr.numericDomain := by
  constructor
  · have hpv : pvCoupons (1 / 2) [⟨1 / 4, 0, 0⟩] 2 = 2 := by
      simp [pvCoupons, List.filter]
      norm_num
    exact bootstrap_log_fault_untyped _ _ _ (by norm_num) (by rw [hpv]; norm_num)
  · simp

/-- Destructuring a retained surface quote: a quote that `surfaceQuote` turns
into a point passed the liquidity filter and the ITM filter, and the point's
forward moneyness and implied vol are the computed ones. -/
theorem surfaceQuote_eq_some (solver : BrentSolver) (ex : ExcerciceStyle)
    (S r q T : ℝ) (asOf : ℤ) (opt : Opt) (p : IVPoint)
    (h : surfaceQuote solver ex S r q T asOf opt = some p) :
    p.forward_moneyness = computeForwardMoneyness S opt.strike r q T
    ∧ (opt.option_type = OptionType.Call
        → ¬ computeForwardMoneyness S opt.strike r q T > 0)
    ∧ (opt.option_type = OptionType.Put
        → ¬ computeForwardMoneyness S opt.strike r q T < 0)
    ∧ p.value = (ivRun solver
        (OptionPricer.make ex (FV.val S) (FV.val opt.strike) (FV.val r) (FV.val T))
        opt.option_type (FV.val opt.last_price) (FV.val q) none).1 := by
  unfold surfaceQuote at h
  dsimp only at h
  by_cases h1 : quoteStale asOf opt
  · rw [if_pos h1] at h
    exact absurd h (by simp)
  rw [if_neg h1] at h
  by_cases h2 : opt.option_type = OptionType.Call
      ∧ computeForwardMoneyness S opt.strike r q T > 0
  · rw [if_pos h2] at h
    exact absurd h (by simp)
  rw [if_neg h2] at h
  by_cases h3 : opt.option_type = OptionType.Put
      ∧ computeForwardMoneyness S opt.strike r q T < 0
  · rw [if_pos h3] at h
    exact absurd h (by simp)
  rw [if_neg h3] at h
  injection h with h
  subst h
  exact ⟨rfl, fun hc hgt => h2 ⟨hc, hgt⟩, fun hc hlt => h3 ⟨hc, hlt⟩, rfl⟩

/-- Destructuring a surface slice: each slice of the built surface comes from
a chain with positive year fraction, and its points are the retained quotes
of that chain. -/
theorem surface_slice_eq (oc : OptionChains) (sc dc : ℝ → ℝ) (asOf : ℤ)
    (solver : BrentSolver) (sl : IVSlice)
    (hsl : sl ∈ (computeVolatilitySurface oc sc dc asOf solver).slices) :
    ∃ chain, chain ∈ oc.chains
      ∧ ¬ ((chain.expiry - asOf : ℤ) : ℝ) / 252 ≤ 0
      ∧ sl = ⟨((chain.expiry - asOf : ℤ) : ℝ) / 252,
          chain.options.filterMap (surfaceQuote solver oc.exercice_style
            oc.last_close_price (sc (((chain.expiry - asOf : ℤ) : ℝ) / 252))
            (dc (((chain.expiry - asOf : ℤ) : ℝ) / 252))
            (((chain.expiry - asOf : ℤ) : ℝ) / 252) asOf)⟩ := by
  unfold computeVolatilitySurface at hsl
  simp only [List.mem_filterMap] at hsl
  obtain ⟨chain, hchain, hf⟩ := hsl
  by_cases hT : ((chain.expiry - asOf : ℤ) : ℝ) / 252 ≤ 0
  · simp only [if_pos hT] at hf
    exact absurd hf (by simp)
  · simp only [if_neg hT] at hf
    injection hf with hf
    exact ⟨chain, hchain, hT, hf.symm⟩

/-- C7: the built volatility surface never retains a call-quote point with
strictly positive forward log-moneyness nor a put-quote point with strictly
negative forward log-moneyness: every point comes from a quote of the
corresponding chain whose forward moneyness obeys the OTM sign rule. -/
theorem surface_otm_only (oc : OptionChains) (sc dc : ℝ → ℝ) (asOf : ℤ)
    (solver : BrentSolver) (sl : IVSlice) (p : IVPoint)
    (hsl : sl ∈ (computeVolatilitySurface oc sc dc asOf solver).slices)
    (hp : p ∈ sl.points) :
    ∃ chain, chain ∈ oc.chains ∧ ∃ opt, opt ∈ chain.options
      ∧ p.forward_moneyness = computeForwardMoneyness oc.last_close_price
          opt.strike (sc sl.year_to_maturity) (dc sl.year_to_maturity)
          sl.year_to_maturity
      ∧ (opt.option_type = OptionType.Call → ¬ p.forward_moneyness > 0)
      ∧ (opt.option_type = OptionType.Put → ¬ p.forward_moneyness < 0) := by
  obtain ⟨chain, hchain, hT, hsl'⟩ :=
    surface_slice_eq oc sc dc asOf solver sl hsl
  subst hsl'
  simp only [List.mem_filterMap] at hp
  obtain ⟨opt, hopt, hq⟩ := hp
  obtain ⟨hfm, hcall, hput, _⟩ :=
    surfaceQuote_eq_some _ _ _ _ _ _ _ _ _ hq
  refine ⟨chain, hchain, opt, hopt, ?_, ?_, ?_⟩
  · exact hfm
  · intro hc
    rw [hfm]
    exact hcall hc
  · intro hc
    rw [hfm]
    exact hput hc

/-- Evaluation of the surface builder on a one-quote chain (spot 1, an ATM
put with volume 10, price 1, fresh trade date, expiry one trading year out,
flat zero curves), for an arbitrary solver. -/
theorem surfaceW_eval (solver : BrentSolver) :
    computeVolatilitySurface
        ⟨ExcerciceStyle.European, 1, [⟨252, [⟨1, OptionType.Put, 0, 1, 10⟩]⟩]⟩
        (fun _ => 0) (fun _ => 0) 0 solver
      = ⟨[⟨1, [⟨1, 1, 0, 0, (ivRun solver
          (OptionPricer.make ExcerciceStyle.European (FV.val 1) (FV.val 1)
            (FV.val 0) (FV.val 1)) OptionType.Put (FV.val 1) (FV.val 0)
          none).1⟩]⟩]⟩ := by
  norm_num [computeVolatilitySurface, surfaceQuote, quoteStale, computeMoneyness,
    computeForwardMoneyness, List.filterMap_cons, Real.exp_zero, Real.log_one]

/-- Witness for C7 at the concrete one-quote chain: the retained put point
has forward moneyness 0, satisfying the OTM sign rule. -/
theorem surface_otm_only_witness :
    ∃ chain, chain ∈ ([⟨252, [⟨1, OptionType.Put, 0, 1, 10⟩]⟩] : List OptionChain)
      ∧ ∃ opt, opt ∈ chain.options
      ∧ (0 : ℝ) = computeForwardMoneyness 1 opt.strike 0 0 1
      ∧ (opt.option_type = OptionType.Call → ¬ (0 : ℝ) > 0)
      ∧ (opt.option_type = OptionType.Put → ¬ (0 : ℝ) < 0) :=
  surface_otm_only
    ⟨ExcerciceStyle.European, 1, [⟨252, [⟨1, OptionType.Put, 0, 1, 10⟩]⟩]⟩
    (fun _ => 0) (fun _ => 0) 0 (fun _ _ _ _ _ _ => Except.ok (FV.val 1))
    ⟨1, [⟨1, 1, 0, 0, FV.val 1⟩]⟩ ⟨1, 1, 0, 0, FV.val 1⟩
    (by rw [surfaceW_eval]; simp; rfl) (by simp)

/-- `surfaceQuote` retains or skips a quote independently of the solver: the
filters run before the implied-vol solve. -/
theorem surfaceQuote_isSome_indep (s1 s2 : BrentSolver) (ex : ExcerciceStyle)
    (S r q T : ℝ) (asOf : ℤ) (opt : Opt) :
    (surfaceQuote s1 ex S r q T asOf opt).isSome
      = (surfaceQuote s2 ex S r q T asOf opt).isSome := by
  unfold surfaceQuote
  dsimp only
  split_ifs <;> rfl

/-- `filterMap` yields lists of the same length under functions that are
`some` on exactly the same inputs. -/
theorem filterMap_length_congr {α β γ : Type} (f : α → Option β) (g : α → Option γ)
    (l : List α) (h : ∀ a, a ∈ l → (f a).isSome = (g a).isSome) :
    (l.filterMap f).length = (l.filterMap g).length := by
  induction l with
  | nil => rfl
  | cons a l ih =>
    have ha := h a (List.mem_cons_self a l)
    have ih' := ih fun x hx => h x (List.mem_cons_of_mem _ hx)
    simp only [List.filterMap_cons]
    cases hfa : f a with
    | none =>
        cases hga : g a with
        | none => exact ih'
        | some c => rw [hfa, hga] at ha; simp at ha
    | some b =>
        cases hga : g a with
        | none => rw [hfa, hga] at ha; simp at ha
        | some c => simp [ih']

/-- C6 (amended): the batch calibrator does *not* skip points whose
implied-volatility solve returned the sentinel.  The shape of the built
surface (slices and points per slice) is independent of the solver's
successes, and with a solver that always fails every retained point carries
the NaN sentinel as its vol. -/
theorem surface_retains_sentinel_points (oc : OptionChains) (sc dc : ℝ → ℝ)
    (asOf : ℤ) (s1 s2 : BrentSolver) (e : BrentErr) :
    (computeVolatilitySurface oc sc dc asOf s1).slices.map
        (fun sl => sl.points.length)
      = (computeVolatilitySurface oc sc dc asOf s2).slices.map
        (fun sl => sl.points.length)
    ∧ ∀ sl, sl ∈ (computeVolatilitySurface oc sc dc asOf
          (fun _ _ _ _ _ _ => Except.error e)).slices →
        ∀ p, p ∈ sl.points → p.value = FV.nan := by
  constructor
  · unfold computeVolatilitySurface
    induction oc.chains with
    | nil => rfl
    | cons c l ih =>
        by_cases hT : ((c.expiry - asOf : ℤ) : ℝ) / 252 ≤ 0
        · simpa only [List.filterMap_cons, if_pos hT] using ih
        · have hlen := filterMap_length_congr
            (surfaceQuote s1 oc.exercice_style oc.last_close_price
              (sc (((c.expiry - asOf : ℤ) : ℝ) / 252))
              (dc (((c.expiry - asOf : ℤ) : ℝ) / 252))
              (((c.expiry - asOf : ℤ) : ℝ) / 252) asOf)
            (surfaceQuote s2 oc.exercice_style oc.last_close_price
              (sc (((c.expiry - asOf : ℤ) : ℝ) / 252))
              (dc (((c.expiry - asOf : ℤ) : ℝ) / 252))
              (((c.expiry - asOf : ℤ) : ℝ) / 252) asOf)
            c.options
            (fun a _ => surfaceQuote_isSome_indep s1 s2 _ _ _ _ _ _ a)
          simp only [List.filterMap_cons, if_neg hT, List.map_cons, ih, hlen]
  · intro sl hsl p hp
    obtain ⟨chain, _, _, hsl'⟩ := surface_slice_eq oc sc dc asOf _ sl hsl
    subst hsl'
    simp only [List.mem_filterMap] at hp
    obtain ⟨opt, _, hq⟩ := hp
    obtain ⟨_, _, _, hv⟩ := surfaceQuote_eq_some _ _ _ _ _ _ _ _ _ hq
    rw [hv]
    rfl

/-- Witness for C6's amended theorem: on the concrete one-quote chain with
the always-failing solver, the retained point's vol is the NaN sentinel. -/
theorem surface_retains_sentinel_points_witness :
    (⟨1, 1, 0, 0, FV.nan⟩ : IVPoint).value = FV.nan :=
  (surface_retains_sentinel_points
    ⟨ExcerciceStyle.European, 1, [⟨252, [⟨1, OptionType.Put, 0, 1, 10⟩]⟩]⟩
    (fun _ => 0) (fun _ => 0) 0 (fun _ _ _ _ _ _ => Except.ok (FV.val 1))
    (fun _ _ _ _ _ _ => Except.error BrentErr.valueErr) BrentErr.valueErr).2
    ⟨1, [⟨1, 1, 0, 0, FV.nan⟩]⟩ (by rw [surfaceW_eval]; simp; rfl)
    ⟨1, 1, 0, 0, FV.nan⟩ (by simp)

/-- C6 (counterexample): on a concrete one-quote chain whose (single)
implied-volatility solve fails, the built surface retains the point and its
`value` field is the NaN sentinel — the claim that no retained `IVPoint`
carries the sentinel is false. -/
theorem surface_sentinel_counterexample :
    computeVolatilitySurface
        ⟨ExcerciceStyle.European, 1, [⟨252, [⟨1, OptionType.Put, 0, 1, 10⟩]⟩]⟩
        (fun _ => 0) (fun _ => 0) 0
        (fun _ _ _ _ _ _ => Except.error BrentErr.valueErr)
      = ⟨[⟨1, [⟨1, 1, 0, 0, FV.nan⟩]⟩]⟩ := by
  rw [surfaceW_eval]
  rfl

/-- C8: on a European chain the per-expiry dividend yield is one closed-form
evaluation: the result does not depend on the root-finder or on any
iteration budget (the fixed-point loop is never invoked), for an expiry
passing the skip rules it is exactly the value of
`compute_eu_dividend_yield` at the ATM pair, and that closed form is
`q = r - (1/T) ln(F/S)` with `F = (C - P)/DF + K`, `DF = e^(-r T)`. -/
theorem dividend_eu_closed_form (s1 s2 : BrentSolver) (f1 f2 : ℕ) (spot : ℝ)
    (scm : ℝ → ℝ) (asOf : ℤ) (minYF : ℝ) (chain : OptionChain) :
    dividendChainStep s1 f1 ExcerciceStyle.European spot scm asOf minYF chain
      = dividendChainStep s2 f2 ExcerciceStyle.European spot scm asOf minYF chain
    ∧ (∀ strike callO putO,
        atmPair spot chain.options = some (strike, callO, putO) →
        ¬ ((chain.expiry - asOf : ℤ) : ℝ) / 252 < minYF →
        ¬ Min.min |callO.last_price| |putO.last_price| < 1e-3 →
        dividendChainStep s1 f1 ExcerciceStyle.European spot scm asOf minYF chain
          = ChainDividendOutcome.value (computeEuDividendYield
              (FV.val callO.last_price) (FV.val putO.last_price) (FV.val spot)
              (FV.val strike) (FV.val (((chain.expiry - asOf : ℤ) : ℝ) / 252))
              (FV.val (scm (((chain.expiry - asOf : ℤ) : ℝ) / 252)))))
    ∧ ∀ C P S K T r : ℝ,
        computeEuDividendYield (FV.val C) (FV.val P) (FV.val S) (FV.val K)
            (FV.val T) (FV.val r)
          = FV.val (r - 1 / T * Real.log (((C - P) / Real.exp (-(r * T)) + K) / S)) := by
  refine ⟨?_, ?_, ?_⟩
  · simp [dividendChainStep]
  · intro strike callO putO hatm hT hmin
    unfold dividendChainStep
    dsimp only
    rw [if_neg hT, hatm]
    dsimp only
    rw [if_neg hmin, if_neg (by simp : ¬ ExcerciceStyle.European = ExcerciceStyle.American)]
  · intro C P S K T r
    simp [computeEuDividendYield]

/-- Evaluation of `atm_pair` on a two-quote chain: one call and one put at
the common strike 1 with spot 1. -/
theorem atmPairW_eval :
    atmPair 1 [⟨1, OptionType.Call, 0, 2, 10⟩, ⟨1, OptionType.Put, 0, 1, 10⟩]
      = some (1, ⟨1, OptionType.Call, 0, 2, 10⟩, ⟨1, OptionType.Put, 0, 1, 10⟩) := by
  norm_num [atmPair, atmStrikes, lastOfType, List.filter, List.foldl, Real.log_one]
  exact ⟨0, rfl⟩

/-- Witness for C8 at a concrete European chain passing every skip rule. -/
theorem dividend_eu_closed_form_witness :
    dividendChainStep (fun _ _ _ _ _ _ => Except.ok (FV.val 1)) 1
        ExcerciceStyle.European 1 (fun _ => 0) 0 (1 / 10)
        ⟨252, [⟨1, OptionType.Call, 0, 2, 10⟩, ⟨1, OptionType.Put, 0, 1, 10⟩]⟩
      = ChainDividendOutcome.value (computeEuDividendYield (FV.val 2) (FV.val 1)
          (FV.val 1) (FV.val 1) (FV.val (((252 - 0 : ℤ) : ℝ) / 252)) (FV.val 0)) :=
  (dividend_eu_closed_form (fun _ _ _ _ _ _ => Except.ok (FV.val 1))
    (fun _ _ _ _ _ _ => Except.ok (FV.val 1)) 1 2 1 (fun _ => 0) 0 (1 / 10)
    ⟨252, [⟨1, OptionType.Call, 0, 2, 10⟩, ⟨1, OptionType.Put, 0, 1, 10⟩]⟩).2.1
    1 ⟨1, OptionType.Call, 0, 2, 10⟩ ⟨1, OptionType.Put, 0, 1, 10⟩
    atmPairW_eval (by norm_num) (by norm_num)

/-- Inserting (via the constructor sort) a point with maturity strictly below
every maturity of an already-sorted list puts it at the front and leaves the
rest untouched. -/
theorem insertionSort_append_smallest (x : YieldPoint) :
    ∀ l : List YieldPoint, List.Sorted ytmLE l →
      (∀ p ∈ l, x.year_to_maturity < p.year_to_maturity) →
      List.insertionSort ytmLE (l ++ [x]) = x :: l := by
  intro l
  induction l with
  | nil => intro _ _; rfl
  | cons a l' ih =>
      intro hs hx
      have hs' : List.Sorted ytmLE l' := hs.of_cons
      have hxl : ∀ p ∈ l', x.year_to_maturity < p.year_to_maturity :=
        fun p hp => hx p (List.mem_cons_of_mem _ hp)
      have hxa : x.year_to_maturity < a.year_to_maturity :=
        hx a (List.mem_cons_self _ _)
      show List.orderedInsert ytmLE a (List.insertionSort ytmLE (l' ++ [x]))
        = x :: a :: l'
      rw [ih hs' hxl, List.orderedInsert,
        if_neg (show ¬ ytmLE a x from not_le.mpr hxa)]
      congr 1
      cases l' with
      | nil => rfl
      | cons b l'' =>
          exact List.orderedInsert_of_le _ _
            ((List.sorted_cons.1 hs).1 b (List.mem_cons_self _ _))

/-- The maturities produced by the bootstrap loop: iteration `k + i` appends
maturity `(k + i + 1) * step`, whatever the fitted par model and whatever
rates come out. -/
theorem bootstrapIter_ok_map (model : ℝ → ℝ) (d : ℤ) (step : ℝ) :
    ∀ (m k : ℕ) (acc out : List YieldPoint),
      bootstrapIter model d step k m acc = Except.ok out →
      out.map (fun p => p.year_to_maturity)
        = acc.map (fun p => p.year_to_maturity)
          ++ (List.range m).map (fun i => (((k + i : ℕ) : ℝ) + 1) * step) := by
  intro m
  induction m with
  | zero =>
      intro k acc out h
      injection h with h
      subst h
      simp
  | succ m ih =>
      intro k acc out h
      unfold bootstrapIter at h
      dsimp only at h
      cases hc : computeSpotRate (((k : ℝ) + 1) * step) acc (model (((k : ℝ) + 1) * step) / 2) with
      | error e => rw [hc] at h; exact absurd h (by simp)
      | ok rate =>
          rw [hc] at h
          have h2 := ih (k + 1) (acc ++ [⟨((k : ℝ) + 1) * step, rate, d⟩]) out h
          rw [h2, List.range_succ_eq_map]
          simp only [List.map_append, List.map_cons, List.map_map, List.map_nil,
            List.append_assoc, List.singleton_append, List.cons_append,
            List.nil_append, Nat.add_zero]
          refine congrArg (List.map (fun p => p.year_to_maturity) acc ++ ·) ?_
          refine congrArg₂ List.cons rfl ?_
          refine List.map_congr_left fun i _ => ?_
          simp only [Function.comp_apply, Nat.succ_eq_add_one]
          have hnn : k + 1 + i = k + (i + 1) := by omega
          rw [hnn]

/-- With coupon 0 the prior-coupon present value is 0. -/
theorem pvCoupons_zero (dt : ℝ) (pts : List YieldPoint) : pvCoupons dt pts 0 = 0 := by
  refine List.sum_eq_zero fun x hx => ?_
  simp only [List.mem_map] at hx
  obtain ⟨p, _, h⟩ := hx
  rw [← h, zero_mul]

/-- Full evaluation of the bootstrap loop under the identically-zero fitted
par model with step 1/2: every bootstrapped rate is 0 and the maturities are
`(k + i + 1) / 2`. -/
theorem bootstrapIter_zero (d : ℤ) :
    ∀ (m k : ℕ) (acc : List YieldPoint),
      bootstrapIter (fun _ => 0) d (1 / 2) k m acc
        = Except.ok (acc
            ++ (List.range m).map fun i => ⟨(((k + i : ℕ) : ℝ) + 1) * (1 / 2), 0, d⟩) := by
  intro m
  induction m with
  | zero => intro k acc; simp [bootstrapIter]
  | succ m ih =>
      intro k acc
      unfold bootstrapIter
      dsimp only
      have hdt : (((k : ℝ) + 1) * (1 / 2)) ≠ 0 := by positivity
      have hc : computeSpotRate (((k : ℝ) + 1) * (1 / 2)) acc (0 / 2)
          = Except.ok 0 := by
        rw [show ((0 : ℝ) / 2) = 0 by norm_num]
        unfold computeSpotRate
        rw [pvCoupons_zero]
        norm_num [hdt]
      rw [hc]
      dsimp only
      have hih := ih (k + 1)
        (acc ++ [(⟨((k : ℝ) + 1) * (1 / 2), 0, d⟩ : YieldPoint)])
      rw [hih]
      rw [List.range_succ_eq_map]
      simp only [List.map_cons, List.map_map, List.append_assoc, List.cons_append,
        List.nil_append, List.singleton_append, Nat.add_zero]
      refine congrArg Except.ok ?_
      refine congrArg (acc ++ ·) ?_
      refine congrArg₂ List.cons rfl ?_
      refine List.map_congr_left fun i _ => ?_
      simp only [Function.comp_apply, Nat.succ_eq_add_one]
      have hnn : k + 1 + i = k + (i + 1) := by omega
      rw [hnn]

/-- C2: whenever the bootstrap over a fitted par curve with `step = 0.5` and
`max_tenor = 30` returns a spot term structure (no log-domain failure on the
way), that structure has exactly 61 points — the 60 semiannual points plus
the special-cased one-month point — and their maturities are strictly
increasing. -/
theorem bootstrap_61_points (fit : List ℝ → List ℝ → ℝ → ℝ)
    (ytm : YieldTermStructure) (out : YieldTermStructure)
    (h : bootstrapSpotTermStructure fit ytm 30 (1 / 2) = Except.ok out) :
    out.points.length = 61
    ∧ List.Chain' (fun p q => p.year_to_maturity < q.year_to_maturity) out.points := by
  unfold bootstrapSpotTermStructure at h
  dsimp only at h
  have hn : ((⌊(30 : ℝ) / (1 / 2)⌋).toNat) = 60 := by norm_num; rfl
  rw [hn] at h
  cases hb : bootstrapIter ytm.model ytm.evaluation_date (1 / 2) 0 60 [] with
  | error e => rw [hb] at h; exact absurd h (by simp)
  | ok pts =>
      rw [hb] at h
      have hmap := bootstrapIter_ok_map ytm.model ytm.evaluation_date (1 / 2)
        60 0 [] pts hb
      simp only [List.map_nil, List.nil_append, Nat.zero_add] at hmap
      cases hp0 : ytm.points.head? with
      | none => rw [hp0] at h; exact absurd h (by simp)
      | some p0 =>
          rw [hp0] at h
          dsimp only at h
          by_cases hg : 1 + p0.yield_rate / 12 ≤ 0
          · rw [if_pos hg] at h; exact absurd h (by simp)
          rw [if_neg hg] at h
          unfold fromRawData at h
          dsimp only at h
          set pt1m : YieldPoint :=
            ⟨1 / 12, 12 * Real.log (1 + p0.yield_rate / 12), ytm.evaluation_date⟩
            with hpt1m
          by_cases hd : ((List.insertionSort ytmLE (pts ++ [pt1m])).map
              fun p => p.evaluation_date).dedup.length = 1
          · rw [if_pos hd] at h
            injection h with h
            subst h
            have hpair : List.Pairwise (· < ·)
                (pts.map fun p => p.year_to_maturity) := by
              rw [hmap, List.pairwise_map]
              refine (List.pairwise_lt_range 60).imp ?_
              intro a b hab
              have : ((a : ℝ) + 1) < ((b : ℝ) + 1) := by
                have := (Nat.cast_lt (α := ℝ)).2 hab
                linarith
              nlinarith
            have hsorted : List.Sorted ytmLE pts := by
              have h1 : List.Pairwise (fun a b : ℝ => a ≤ b)
                  (pts.map fun p => p.year_to_maturity) :=
                hpair.imp fun hab => le_of_lt hab
              exact (List.pairwise_map
                (f := fun p : YieldPoint => p.year_to_maturity)).1 h1
            have hsmall : ∀ p ∈ pts, pt1m.year_to_maturity < p.year_to_maturity := by
              intro p hp
              have hmem : p.year_to_maturity ∈ pts.map fun p => p.year_to_maturity :=
                List.mem_map_of_mem _ hp
              rw [hmap] at hmem
              simp only [List.mem_map, List.mem_range] at hmem
              obtain ⟨i, _, hi⟩ := hmem
              rw [← hi, hpt1m]
              have : (0 : ℝ) ≤ (i : ℝ) := Nat.cast_nonneg i
              norm_num
              linarith
            have hsort_eq : List.insertionSort ytmLE (pts ++ [pt1m]) = pt1m :: pts :=
              insertionSort_append_smallest pt1m pts hsorted hsmall
            rw [hsort_eq]
            have hlen : pts.length = 60 := by
              have := congrArg List.length hmap
              simpa using this
            constructor
            · simp [hlen]
            · refine List.Pairwise.chain' ?_
              exact List.pairwise_cons.2 ⟨hsmall,
                (List.pairwise_map (f := fun p : YieldPoint => p.year_to_maturity)).1 hpair⟩
          · rw [if_neg hd] at h
            exact absurd h (by simp)

/-- Deduplicating a constant list leaves its single value. -/
theorem dedup_const_cons (c : ℤ) :
    ∀ l : List ℕ, ((c :: l.map fun _ => c) : List ℤ).dedup = [c]
  | [] => by simp
  | a :: l => by
      simp only [List.map_cons]
      rw [List.dedup_cons_of_mem (List.mem_cons_self c _)]
      exact dedup_const_cons c l

/-- Witness for C2: bootstrapping the identically-zero fitted par curve with
`step = 0.5`, `max_tenor = 30` succeeds and yields the 61 points
`1/12, 0.5, 1.0, …, 30.0`, strictly increasing. -/
theorem bootstrap_61_points_witness :
    bootstrapSpotTermStructure (fun _ _ _ => 0)
        ⟨[⟨1 / 12, 0, 0⟩], TermStructureType.Par, 0, fun _ => 0⟩ 30 (1 / 2)
      = Except.ok ⟨(⟨1 / 12, 0, 0⟩ : YieldPoint) ::
          ((List.range 60).map fun i => ⟨(((0 + i : ℕ) : ℝ) + 1) * (1 / 2), 0, 0⟩),
          TermStructureType.Spot, 0, fun _ => 0⟩
    ∧ ((⟨1 / 12, 0, 0⟩ : YieldPoint) ::
          ((List.range 60).map fun i =>
            ⟨(((0 + i : ℕ) : ℝ) + 1) * (1 / 2), 0, 0⟩) : List YieldPoint).length = 61
    ∧ List.Chain' (fun p q => p.year_to_maturity < q.year_to_maturity)
        ((⟨1 / 12, 0, 0⟩ : YieldPoint) ::
          ((List.range 60).map fun i => ⟨(((0 + i : ℕ) : ℝ) + 1) * (1 / 2), 0, 0⟩)) := by
  have hpair : List.Pairwise (fun p q : YieldPoint =>
      p.year_to_maturity < q.year_to_maturity)
      ((List.range 60).map fun i =>
        (⟨(((0 + i : ℕ) : ℝ) + 1) * (1 / 2), 0, 0⟩ : YieldPoint)) := by
    refine List.pairwise_map.2 ?_
    refine (List.pairwise_lt_range 60).imp ?_
    intro a b hab
    simp only [Nat.zero_add]
    have hc := (Nat.cast_lt (α := ℝ)).2 hab
    nlinarith
  have hsmall : ∀ p ∈ (List.range 60).map fun i =>
      (⟨(((0 + i : ℕ) : ℝ) + 1) * (1 / 2), 0, 0⟩ : YieldPoint),
      (⟨1 / 12, 0, 0⟩ : YieldPoint).year_to_maturity < p.year_to_maturity := by
    intro p hp
    simp only [List.mem_map, List.mem_range] at hp
    obtain ⟨i, _, rfl⟩ := hp
    simp only [Nat.zero_add]
    have hc : (0 : ℝ) ≤ (i : ℝ) := Nat.cast_nonneg i
    norm_num
    linarith
  have hOk : bootstrapSpotTermStructure (fun _ _ _ => 0)
      ⟨[⟨1 / 12, 0, 0⟩], TermStructureType.Par, 0, fun _ => 0⟩ 30 (1 / 2)
      = Except.ok ⟨(⟨1 / 12, 0, 0⟩ : YieldPoint) ::
          ((List.range 60).map fun i => ⟨(((0 + i : ℕ) : ℝ) + 1) * (1 / 2), 0, 0⟩),
          TermStructureType.Spot, 0, fun _ => 0⟩ := by
    unfold bootstrapSpotTermStructure
    dsimp only
    have hn : ((⌊(30 : ℝ) / (1 / 2)⌋).toNat) = 60 := by norm_num; rfl
    rw [hn, bootstrapIter_zero 0 60 0 []]
    simp only [List.nil_append, List.head?_cons]
    rw [if_neg (by norm_num : ¬ (1 : ℝ) + 0 / 12 ≤ 0)]
    rw [show (12 : ℝ) * Real.log (1 + 0 / 12) = 0 by norm_num [Real.log_one]]
    unfold fromRawData
    dsimp only
    rw [insertionSort_append_smallest (⟨1 / 12, 0, 0⟩ : YieldPoint) _
      (hpair.imp fun hab => le_of_lt hab) hsmall]
    have hdates : (((⟨1 / 12, 0, 0⟩ : YieldPoint) ::
        ((List.range 60).map fun i =>
          (⟨(((0 + i : ℕ) : ℝ) + 1) * (1 / 2), 0, 0⟩ : YieldPoint))).map
          fun p => p.evaluation_date)
        = ((0 : ℤ) :: (List.range 60).map fun _ => (0 : ℤ)) := by
      simp [List.map_map]
      rfl
    rw [hdates, dedup_const_cons 0 (List.range 60)]
    rfl
  exact ⟨hOk, (bootstrap_61_points _ _ _ hOk).1, (bootstrap_61_points _ _ _ hOk).2⟩

/-- The parity-seeded dividend yield at the diverging input
`C = 1000, P = 500, S = K = T = 1, r = 0`. -/
theorem euDiv_seed :
    computeEuDividendYield (FV.val 1000) (FV.val 500) (FV.val 1) (FV.val 1)
      (FV.val 1) (FV.val 0) = FV.val (-Real.log 501) := by
  simp only [computeEuDividendYield, FV.mul_val, FV.neg_val, FV.exp_val,
    FV.sub_val, FV.div_val, FV.add_val, FV.log_val, FV.val_inj]
  norm_num

/-- The dividend parity formula propagates NaN prices to a NaN yield. -/
theorem euDiv_nan (spot strike T r : FV) :
    computeEuDividendYield FV.nan FV.nan spot strike T r = FV.nan := by
  simp [computeEuDividendYield]

/-- The implied-vol objective is NaN whenever the stored dividend yield is
NaN (the price itself is NaN). -/
theorem ivObjective_qnan (S K r σ0 market : FV) (ot : OptionType) (x : ℝ) :
    ivObjective ⟨ExcerciceStyle.European, S, K, r, FV.val 1, σ0, FV.nan⟩ ot
      market (FV.val x) = FV.nan := by
  unfold ivObjective priceRun
  have hT : ¬ FV.le (FV.val 1) (FV.val 0) := by norm_num
  simp [hT, bsmPrice_q_nan]

/-- The implied-vol objective at the diverging input's European pricer:
the value is the closed-form call price minus the market price. -/
theorem ivObjective_eu_val (S K r T q m : ℝ) (σ0 : FV) (hT : ¬ T ≤ 0) (x : ℝ) :
    ivObjective ⟨ExcerciceStyle.European, FV.val S, FV.val K, FV.val r,
        FV.val T, σ0, FV.val q⟩ OptionType.Call (FV.val m) (FV.val x)
      = FV.val (bsmCallR S K r q x T - m) := by
  unfold ivObjective priceRun
  have hT' : ¬ FV.le (FV.val T) (FV.val 0) := by simpa using hT
  simp [hT', bsmPrice_val]

/-- With a NaN stored dividend yield, the European implied-vol solve (default
bracket) fails its convergence checks and returns the NaN sentinel; the state
keeps the upper bracket end as `sigma` and the NaN as `q`. -/
theorem ivRun_qnan (oracle : (FV → FV) → FV → FV → Except BrentErr FV)
    (S K r σ0 q0 market : FV) (ot : OptionType) :
    ivRun (brentqModel oracle) ⟨ExcerciceStyle.European, S, K, r, FV.val 1, σ0, q0⟩
      ot market FV.nan none
      = (FV.nan, ⟨ExcerciceStyle.European, S, K, r, FV.val 1, FV.val 2.0, FV.nan⟩) := by
  unfold ivRun ivCore ivBracket brentqModel
  simp [ivObjective_qnan]

/-- A NaN initial guess is truthy, so the bracket becomes `[0.5*NaN, 1.5*NaN]`
and the solve fails with the NaN sentinel. -/
theorem ivRun_nanguess (oracle : (FV → FV) → FV → FV → Except BrentErr FV)
    (st : PricerState) (ot : OptionType) (market q' : FV) :
    ivRun (brentqModel oracle) st ot market q' (some FV.nan)
      = (FV.nan, ⟨st.style, st.S, st.K, st.r, st.T, FV.nan, q'⟩) := by
  unfold ivRun ivCore ivBracket brentqModel
  simp

/-- Pricing with NaN `sigma` and `q` arguments at the diverging input's
European pricer yields NaN and stores the NaNs. -/
theorem priceRun_nanargs_eu (σ0 q0 : FV) (ot : OptionType) :
    priceRun ⟨ExcerciceStyle.European, FV.val 1, FV.val 1, FV.val 0, FV.val 1, σ0, q0⟩
      ot (some FV.nan) (some FV.nan)
      = (FV.nan, ⟨ExcerciceStyle.European, FV.val 1, FV.val 1, FV.val 0, FV.val 1,
          FV.nan, FV.nan⟩) := by
  unfold priceRun
  have hT : ¬ FV.le (FV.val 1) (FV.val 0) := by norm_num
  simp [hT, bsmPrice_sigma_nan]

/-- The closed-form call price at the diverging input is below the quoted
market price 1000 for every volatility: the forward is exactly 501 and the
normal CDF factors lie in `[0, 1]`. -/
theorem bsm_call_lt_market (x : ℝ) :
    bsmCallR 1 1 0 (-Real.log 501) x 1 - 1000 < 0 := by
  have hb1 := normR_le_one (d1R 1 1 0 (-Real.log 501) x 1)
  have hb2 := normR_nonneg (d2R 1 1 0 (-Real.log 501) x 1)
  have hb3 := normR_nonneg (d1R 1 1 0 (-Real.log 501) x 1)
  unfold bsmCallR
  rw [show ((0 : ℝ) - -Real.log 501) * 1 = Real.log 501 by ring,
    Real.exp_log (by norm_num : (0 : ℝ) < 501),
    show (-((0 : ℝ) * 1)) = 0 by ring, Real.exp_zero]
  nlinarith

/-- One loop iteration at the diverging input, `q = NaN`: every solve and
every price is NaN, so the new `q` is NaN again. -/
theorem amStep_nan (oracle : (FV → FV) → FV → FV → Except BrentErr FV)
    (σe qe σa qa : FV) :
    amStep (brentqModel oracle) (FV.val 1000) (FV.val 500) (FV.val 1) (FV.val 1)
      (FV.val 1) (FV.val 0)
      (FV.nan, ⟨ExcerciceStyle.European, FV.val 1, FV.val 1, FV.val 0, FV.val 1, σe, qe⟩,
        ⟨ExcerciceStyle.American, FV.val 1, FV.val 1, FV.val 0, FV.val 1, σa, qa⟩)
      = (FV.nan,
          ⟨ExcerciceStyle.European, FV.val 1, FV.val 1, FV.val 0, FV.val 1, FV.nan, FV.nan⟩,
          ⟨ExcerciceStyle.American, FV.val 1, FV.val 1, FV.val 0, FV.val 1, FV.nan, FV.nan⟩) := by
  unfold amStep
  dsimp only
  rw [ivRun_qnan oracle]
  dsimp only
  rw [ivRun_nanguess oracle]
  dsimp only
  rw [ivRun_nanguess oracle]
  dsimp only
  rw [priceRun_nanargs_eu]
  dsimp only
  rw [priceRun_nanargs_eu]
  dsimp only
  rw [euDiv_nan]

/-- The first loop iteration at the diverging input: the bracket precheck
fails (`f` is negative at both bracket ends), all vols come out NaN, and the
recomputed `q` is NaN. -/
theorem amStep_first (oracle : (FV → FV) → FV → FV → Except BrentErr FV) :
    amStep (brentqModel oracle) (FV.val 1000) (FV.val 500) (FV.val 1) (FV.val 1)
      (FV.val 1) (FV.val 0)
      (FV.val (-Real.log 501),
        OptionPricer.make ExcerciceStyle.European (FV.val 1) (FV.val 1) (FV.val 0) (FV.val 1),
        OptionPricer.make ExcerciceStyle.American (FV.val 1) (FV.val 1) (FV.val 0) (FV.val 1))
      = (FV.nan,
          ⟨ExcerciceStyle.European, FV.val 1, FV.val 1, FV.val 0, FV.val 1, FV.nan,
            FV.val (-Real.log 501)⟩,
          ⟨ExcerciceStyle.American, FV.val 1, FV.val 1, FV.val 0, FV.val 1, FV.nan,
            FV.val (-Real.log 501)⟩) := by
  have hq : (-Real.log 501 : ℝ) ≠ 0 :=
    neg_ne_zero.mpr (ne_of_gt (Real.log_pos (by norm_num)))
  have hr1 : ivRun (brentqModel oracle)
      (OptionPricer.make ExcerciceStyle.European (FV.val 1) (FV.val 1) (FV.val 0) (FV.val 1))
      OptionType.Call (FV.val 1000) (FV.val (-Real.log 501)) none
      = (FV.nan, ⟨ExcerciceStyle.European, FV.val 1, FV.val 1, FV.val 0, FV.val 1,
          FV.val 2.0, FV.val (-Real.log 501)⟩) := by
    unfold ivRun ivCore ivBracket OptionPricer.make brentqModel
    dsimp only
    rw [ivObjective_eu_val 1 1 0 1 (-Real.log 501) 1000 (FV.val 0) (by norm_num) 0.01,
      ivObjective_eu_val 1 1 0 1 (-Real.log 501) 1000 (FV.val 0) (by norm_num) 2.0]
    have hpos : (0 : ℝ) < (bsmCallR 1 1 0 (-Real.log 501) 0.01 1 - 1000)
        * (bsmCallR 1 1 0 (-Real.log 501) 2.0 1 - 1000) :=
      mul_pos_of_neg_of_neg (bsm_call_lt_market 0.01) (bsm_call_lt_market 2.0)
    simp [hpos]
  unfold amStep
  dsimp only
  rw [hr1]
  dsimp only
  rw [ivRun_nanguess oracle]
  dsimp only
  rw [ivRun_nanguess oracle]
  dsimp only
  have hp : priceRun ⟨ExcerciceStyle.European, FV.val 1, FV.val 1, FV.val 0, FV.val 1,
      FV.val 2.0, FV.val (-Real.log 501)⟩ OptionType.Call (some FV.nan)
      (some (FV.val (-Real.log 501)))
      = (FV.nan, ⟨ExcerciceStyle.European, FV.val 1, FV.val 1, FV.val 0, FV.val 1,
          FV.nan, FV.val (-Real.log 501)⟩) := by
    unfold priceRun
    have hT : ¬ FV.le (FV.val 1) (FV.val 0) := by norm_num
    simp [hT, hq, bsmPrice_sigma_nan]
  have hp2 : priceRun ⟨ExcerciceStyle.European, FV.val 1, FV.val 1, FV.val 0, FV.val 1,
      FV.nan, FV.val (-Real.log 501)⟩ OptionType.Put (some FV.nan)
      (some (FV.val (-Real.log 501)))
      = (FV.nan, ⟨ExcerciceStyle.European, FV.val 1, FV.val 1, FV.val 0, FV.val 1,
          FV.nan, FV.val (-Real.log 501)⟩) := by
    unfold priceRun
    have hT : ¬ FV.le (FV.val 1) (FV.val 0) := by norm_num
    simp [hT, hq, bsmPrice_sigma_nan]
  rw [hp]
  dsimp only
  rw [hp2]
  dsimp only
  rw [euDiv_nan]
  rfl

/-- Once `q` is NaN at the diverging input, the loop never meets the
`|q_new - q| < 1e-9` exit for any remaining fuel. -/
theorem amLoop_nan (oracle : (FV → FV) → FV → FV → Except BrentErr FV) :
    ∀ (n : ℕ) (σe qe σa qa : FV),
      amLoop (brentqModel oracle) (FV.val 1000) (FV.val 500) (FV.val 1) (FV.val 1)
        (FV.val 1) (FV.val 0) n
        (FV.nan,
          ⟨ExcerciceStyle.European, FV.val 1, FV.val 1, FV.val 0, FV.val 1, σe, qe⟩,
          ⟨ExcerciceStyle.American, FV.val 1, FV.val 1, FV.val 0, FV.val 1, σa, qa⟩)
        = none := by
  intro n
  induction n with
  | zero => intro σe qe σa qa; rfl
  | succ n ih =>
      intro σe qe σa qa
      unfold amLoop
      rw [amStep_nan oracle]
      dsimp only
      rw [if_neg (by simp)]
      exact ih FV.nan FV.nan FV.nan FV.nan

/-- At `C = 1000, P = 500, S = K = T = 1, r = 0` the American dividend-yield
fixed point never terminates, whatever fuel it is given: the seeded `q`
makes the first bracket fail, `q` becomes NaN, and `|NaN - NaN| < 1e-9` is
false forever. -/
theorem computeAm_diverges (oracle : (FV → FV) → FV → FV → Except BrentErr FV) :
    ∀ n : ℕ,
      computeAmDividendYield (brentqModel oracle) n (FV.val 1000) (FV.val 500)
        (FV.val 1) (FV.val 1) (FV.val 1) (FV.val 0) = none := by
  intro n
  unfold computeAmDividendYield
  rw [euDiv_seed]
  cases n with
  | zero => rfl
  | succ n =>
      show amLoop _ _ _ _ _ _ _ (n + 1) _ = none
      unfold amLoop
      rw [amStep_first oracle]
      dsimp only
      rw [if_neg (by simp)]
      exact amLoop_nan oracle n FV.nan (FV.val (-Real.log 501)) FV.nan
        (FV.val (-Real.log 501))

/-- C4 (amended): the fixed-point loop of `compute_am_dividend_yield` has no
iteration cap and its termination is not guaranteed: at the concrete input
`C = 1000, P = 500, S = K = T = 1, r = 0` (with the root-finder's bracket
precheck behaving as specified) the loop fails to exit for every iteration
budget — `q` degenerates to the NaN sentinel and the convergence test is
never satisfied. -/
theorem am_dividend_loop_unbounded :
    ∀ n : ℕ,
      computeAmDividendYield (brentqModel fun _ _ b => Except.ok b) n
        (FV.val 1000) (FV.val 500) (FV.val 1) (FV.val 1) (FV.val 1) (FV.val 0)
        = none :=
  computeAm_diverges fun _ _ b => Except.ok b

/-- C4 (counterexample): there is no iteration count within which the
fixed-point loop terminates on the input
`C = 1000, P = 500, S = K = T = 1, r = 0` — refuting the claim that the loop
is bounded by an explicit cap guaranteeing termination. -/
theorem am_dividend_loop_counterexample :
    ¬ ∃ cap : ℕ,
      (computeAmDividendYield (brentqModel fun _ _ b => Except.ok b) cap
        (FV.val 1000) (FV.val 500) (FV.val 1) (FV.val 1) (FV.val 1)
        (FV.val 0)).isSome := by
  rintro ⟨cap, hc⟩
  rw [computeAm_diverges (fun _ _ b => Except.ok b) cap] at hc
  exact absurd hc (by simp)

end

end ORE
